import Mathlib

/-!
Verification of the Technology Document Generator pipeline (a PocketFlow
application).  The definitions below are a shallow embedding of the Python
sources: the Shared Store is an association list of string keys to
dynamically-typed values, each node's phases become Lean functions on that
store, and the Merge coordinator's bounded poll becomes a fuel-indexed
recursion over a schedule of store snapshots (one snapshot per poll check).
-/

namespace TechDoc

/-- ASCII whitespace, as far as the strings this pipeline handles are
concerned: the characters `str.strip()` removes. -/
def isSpaceChar (c : Char) : Bool := c == ' ' || c == '\t' || c == '\n' || c == '\r'

/-- Python's `str.strip()` (kernel-computable model over the character
list). -/
def pyStrip (s : String) : String :=
  String.mk (((s.data.dropWhile isSpaceChar).reverse.dropWhile isSpaceChar).reverse)

/-- Lower-case one ASCII character, as `str.lower()` does on the ASCII
names this pipeline handles. -/
def lowerChar (c : Char) : Char :=
  if 65 ≤ c.toNat && c.toNat ≤ 90 then Char.ofNat (c.toNat + 32) else c

/-- Python's `str.lower()`. -/
def pyLower (s : String) : String := String.mk (s.data.map lowerChar)

/-- A Python value as stored in the Shared Store.  Only the shapes the
pipeline actually stores are represented: `None`, booleans, strings, lists
of strings (the technology list) and string-keyed dictionaries. -/
inductive Value where
  | null
  | bool (b : Bool)
  | str (s : String)
  | strList (xs : List String)
  | dict (kvs : List (String × Value))

/-- `v is not None` in Python. -/
def Value.isNull : Value → Bool
  | .null => true
  | _ => false

/-- Python truthiness of a stored value (`bool(v)`): `None`, `False`, the
empty string, the empty list and the empty dict are falsy. -/
def Value.truthy : Value → Bool
  | .null => false
  | .bool b => b
  | .str s => !s.data.isEmpty
  | .strList xs => !xs.isEmpty
  | .dict kvs => !kvs.isEmpty

/-- `isinstance(v, str)`. -/
def Value.isStr : Value → Bool
  | .str _ => true
  | _ => false

/-- `isinstance(v, dict)`. -/
def Value.isDict : Value → Bool
  | .dict _ => true
  | _ => false

/-- `k in v` for a dict value (`False` on non-dicts). -/
def Value.dictHas (v : Value) (k : String) : Bool :=
  match v with
  | .dict kvs => kvs.any (fun kv => kv.1 == k)
  | _ => false

/-- `len(v)` for a dict value (`0` on non-dicts). -/
def Value.dictSize : Value → Nat
  | .dict kvs => kvs.length
  | _ => 0

/-- The Shared Store: one mutable string-keyed mapping per pipeline run,
modelled as an association list (first binding of a key is its value). -/
def Store := List (String × Value)

/-- `shared.get(k)`: association-list lookup; an absent key reads as
`None`, exactly as Python's `dict.get` defaults to `None`. -/
def storeGet : Store → String → Value
  | [], _ => .null
  | (k', v) :: rest, k => if k' = k then v else storeGet rest k

/-- `shared[k] = v`: replace the binding of `k` if present, else append. -/
def storeSet : Store → String → Value → Store
  | [], k, v => [(k, v)]
  | (k', v') :: rest, k, v =>
      if k' = k then (k, v) :: rest else (k', v') :: storeSet rest k v

theorem storeGet_storeSet_same (s : Store) (k : String) (v : Value) :
    storeGet (storeSet s k v) k = v := by
  induction s with
  | nil => simp [storeSet, storeGet]
  | cons hd tl ih =>
      by_cases h : hd.1 = k
      · simp [storeSet, storeGet, h]
      · simp [storeSet, storeGet, h, ih]

theorem storeGet_storeSet_other (s : Store) {a k : String} (v : Value)
    (h : a ≠ k) : storeGet (storeSet s a v) k = storeGet s k := by
  induction s with
  | nil => simp [storeSet, storeGet, h]
  | cons hd tl ih =>
      obtain ⟨k', v'⟩ := hd
      by_cases h' : k' = a
      · subst h'
        simp [storeSet, storeGet, h]
      · by_cases h'' : k' = k
        · subst h''
          simp [storeSet, storeGet, h']
        · simp [storeSet, storeGet, h', h'', ih]

/-! ## Merge coordinator (`MergeResultsNode.prep`, src/nodes.py)

The prep phase polls the Shared Store every 0.5 s until both `outline`
and `research_results` are non-null, up to a 120 s deadline — that is,
240 checks at `wait_time = 0, 0.5, …, 119.5`.  Because the Outline and
Research branches mutate the store concurrently, the loop may observe a
different store at every check: we model a run as a *schedule*
`Nat → Store` giving the snapshot the n-th check reads; snapshot 240 is
the read the timeout branch performs after the loop exits. -/

/-- Result of `MergeResultsNode.prep`: either the success mapping
`{"outline": …, "research": …, "technologies": …}` or the
`TimeoutError` naming the branches reported missing. -/
inductive MergePrepResult where
  | success (outline research technologies : Value)
  | timeout (missing : List String)

/-- The loop's readiness test: `shared.get("outline") is not None and
shared.get("research_results") is not None`. -/
def bothReady (s : Store) : Bool :=
  !(storeGet s "outline").isNull && !(storeGet s "research_results").isNull

/-- The timeout branch's report: `if not shared.get("outline")` /
`if not shared.get("research_results")` — note this is Python
*truthiness*, not the `is not None` test the loop used. -/
def missingOf (s : Store) : List String :=
  (if (storeGet s "outline").truthy then [] else ["outline"]) ++
    (if (storeGet s "research_results").truthy then [] else ["research results"])

/-- The poll loop: `n` counts checks done so far, `fuel` checks remain.
Each iteration reads snapshot `sched n`; when fuel runs out the timeout
branch reads snapshot `sched n` once more for its report. -/
def mergePrepLoop (sched : Nat → Store) : Nat → Nat → MergePrepResult
  | n, 0 => .timeout (missingOf (sched n))
  | n, fuel + 1 =>
      let s := sched n
      if bothReady s then
        .success (storeGet s "outline") (storeGet s "research_results")
          (storeGet s "technologies")
      else
        mergePrepLoop sched (n + 1) fuel

/-- `MergeResultsNode.prep`: 120 s deadline at 0.5 s per check = 240
checks, then the timeout report on snapshot 240. -/
def mergeResultsPrep (sched : Nat → Store) : MergePrepResult :=
  mergePrepLoop sched 0 240

theorem mergePrepLoop_timeout (sched : Nat → Store) (fuel n : Nat)
    (h : ∀ i, i < fuel → bothReady (sched (n + i)) = false) :
    mergePrepLoop sched n fuel = .timeout (missingOf (sched (n + fuel))) := by
  induction fuel generalizing n with
  | zero => simp [mergePrepLoop]
  | succ fuel ih =>
      have h0 : bothReady (sched n) = false := by
        simpa using h 0 (Nat.succ_pos fuel)
      have hrest : ∀ i, i < fuel → bothReady (sched (n + 1 + i)) = false := by
        intro i hi
        have := h (i + 1) (by omega)
        simpa [Nat.add_assoc, Nat.add_comm 1 i] using this
      rw [mergePrepLoop]
      simp only [h0]
      rw [if_neg (by simp [h0])]
      rw [ih (n + 1) hrest]
      have : n + 1 + fuel = n + (fuel + 1) := by omega
      rw [this]

theorem mergePrepLoop_success (sched : Nat → Store) (fuel n : Nat)
    (h : ∃ i, i < fuel ∧ bothReady (sched (n + i)) = true) :
    ∃ o r t, mergePrepLoop sched n fuel = .success o r t := by
  induction fuel generalizing n with
  | zero =>
      obtain ⟨i, hi, _⟩ := h
      omega
  | succ fuel ih =>
      by_cases h0 : bothReady (sched n) = true
      · refine ⟨storeGet (sched n) "outline", storeGet (sched n) "research_results",
          storeGet (sched n) "technologies", ?_⟩
        rw [mergePrepLoop]
        simp [h0]
      · obtain ⟨i, hi, hready⟩ := h
        have hi0 : i ≠ 0 := by
          intro h'
          subst h'
          simp at hready
          exact h0 (by simpa using hready)
        have : ∃ j, j < fuel ∧ bothReady (sched (n + 1 + j)) = true := by
          refine ⟨i - 1, by omega, ?_⟩
          have : n + 1 + (i - 1) = n + i := by omega
          rw [this]; exact hready
        obtain ⟨o, r, t, hres⟩ := ih (n + 1) this
        refine ⟨o, r, t, ?_⟩
        rw [mergePrepLoop]
        rw [if_neg (by simpa using h0)]
        exact hres

/-! ## Branch output-writes and their concurrent interleaving

`CreateOutlineNode.post` performs exactly the two store assignments
`shared["outline"] = exec_res; shared["outline_complete"] = True`, and
`ResearchTechnologiesNode.post_async` performs exactly
`shared["research_results"] = …; shared["research_complete"] = True`.
Running the two branches concurrently interleaves these four single-key
assignments in some order; any interleaving of the two per-branch
sequences is a permutation of their concatenation, so we prove the frame
result for every permutation. -/

/-- A single `shared[k] = v` assignment. -/
def WriteOp := String × Value

/-- Apply a sequence of assignments to the store, in order. -/
def applyWrites (s : Store) : List WriteOp → Store
  | [] => s
  | w :: ws => applyWrites (storeSet s w.1 w.2) ws

/-- The last value a sequence of assignments writes to key `k`, if any. -/
def lastWrite : List WriteOp → String → Option Value
  | [], _ => none
  | w :: ws, k =>
      match lastWrite ws k with
      | some v => some v
      | none => if w.1 = k then some w.2 else none

theorem lastWrite_eq_none_of_not_mem (ws : List WriteOp) (k : String)
    (h : k ∉ ws.map Prod.fst) : lastWrite ws k = none := by
  induction ws with
  | nil => rfl
  | cons w ws ih =>
      simp only [List.map_cons, List.mem_cons] at h
      push_neg at h
      rw [lastWrite, ih h.2]
      simp [Ne.symm h.1]

theorem lastWrite_eq_of_mem (ws : List WriteOp) (k : String) (v : Value)
    (hmem : (k, v) ∈ ws) (hnd : (ws.map Prod.fst).Nodup) :
    lastWrite ws k = some v := by
  induction ws with
  | nil => simp at hmem
  | cons w ws ih =>
      simp only [List.map_cons, List.nodup_cons] at hnd
      rcases List.mem_cons.mp hmem with heq | htail
      · subst heq
        rw [lastWrite, lastWrite_eq_none_of_not_mem ws k hnd.1]
        simp
      · rw [lastWrite, ih htail hnd.2]

theorem storeGet_applyWrites (s : Store) (ws : List WriteOp) (k : String) :
    storeGet (applyWrites s ws) k =
      match lastWrite ws k with
      | some v => v
      | none => storeGet s k := by
  induction ws generalizing s with
  | nil => rfl
  | cons w ws ih =>
      rw [applyWrites, ih, lastWrite]
      cases hlw : lastWrite ws k with
      | some v => rfl
      | none =>
          by_cases hk : w.1 = k
          · subst hk
            simp [storeGet_storeSet_same]
          · simp [hk, storeGet_storeSet_other s w.2 hk]

/-- `CreateOutlineNode.post` as its sequence of store assignments. -/
def outlineWrites (outline : Value) : List WriteOp :=
  [("outline", outline), ("outline_complete", .bool true)]

/-- `ResearchTechnologiesNode.post_async` as its sequence of store
assignments. -/
def researchWrites (research : Value) : List WriteOp :=
  [("research_results", research), ("research_complete", .bool true)]

/-- `CreateOutlineNode.post` acting on the store. -/
def outlinePost (s : Store) (outline : Value) : Store :=
  applyWrites s (outlineWrites outline)

/-! ## Research batch node (`ResearchTechnologiesNode`, src/nodes.py)

`exec_async` returns `{"technology": technology, "research": …}` for one
item, modelled as the pair `(technology, research)`.  `post_async`
receives the collection of per-item results and builds the
`research_results` dict by repeated Python dict assignment. -/

/-- One `d[k] = v` on a Python dict modelled as an insertion-ordered
association list: overwrite in place if the key exists, else append. -/
def dictAssign (kvs : List (String × String)) (k v : String) :
    List (String × String) :=
  if kvs.any (fun kv => kv.1 = k) then
    kvs.map (fun kv => if kv.1 = k then (k, v) else kv)
  else kvs ++ [(k, v)]

/-- The loop body of `ResearchTechnologiesNode.post_async`:
`research_results = {}` then
`research_results[result["technology"]] = result["research"]` for each
per-item result. -/
def buildResearchResults (results : List (String × String)) :
    List (String × String) :=
  results.foldl (fun acc r => dictAssign acc r.1 r.2) []

/-- `ResearchTechnologiesNode.post_async` acting on the store:
`shared["research_results"] = research_results;
shared["research_complete"] = True`. -/
def researchPost (s : Store) (results : List (String × String)) : Store :=
  applyWrites s
    (researchWrites (.dict ((buildResearchResults results).map
      (fun kv => (kv.1, Value.str kv.2)))))

theorem dictAssign_not_mem (kvs : List (String × String)) (k v : String)
    (h : k ∉ kvs.map Prod.fst) : dictAssign kvs k v = kvs ++ [(k, v)] := by
  rw [dictAssign, if_neg]
  intro hany
  rw [List.any_eq_true] at hany
  obtain ⟨kv, hkv, heq⟩ := hany
  rw [decide_eq_true_eq] at heq
  exact h (heq ▸ List.mem_map_of_mem Prod.fst hkv)

/-- When no key repeats among the per-item results, every dict
assignment in `post_async`'s loop is a fresh append, so the built dict
is the result list itself. -/
theorem buildResearchResults_eq_self (results : List (String × String))
    (h : (results.map Prod.fst).Nodup) : buildResearchResults results = results := by
  suffices haux : ∀ (rs acc : List (String × String)),
      ((acc ++ rs).map Prod.fst).Nodup →
      rs.foldl (fun acc r => dictAssign acc r.1 r.2) acc = acc ++ rs by
    have := haux results [] (by simpa using h)
    simpa [buildResearchResults] using this
  intro rs
  induction rs with
  | nil => intro acc _; simp
  | cons r rs ih =>
      intro acc hnd
      have hfresh : r.1 ∉ acc.map Prod.fst := by
        intro hmem
        have hdisj := (List.nodup_append.mp (by simpa using hnd)).2.2
        exact hdisj hmem (by simp)
      rw [List.foldl_cons, dictAssign_not_mem acc r.1 r.2 hfresh]
      have : ((acc ++ [r]) ++ rs).map Prod.fst |>.Nodup := by
        simpa [List.append_assoc] using hnd
      rw [ih (acc ++ [r]) this]
      simp

/-- Association-list lookup of a present key succeeds with its unique
value when the keys are duplicate-free. -/
theorem lookup_eq_of_mem_of_nodup (l : List (String × String)) (k v : String)
    (hmem : (k, v) ∈ l) (hnd : (l.map Prod.fst).Nodup) :
    l.lookup k = some v := by
  induction l with
  | nil => simp at hmem
  | cons p l ih =>
      simp only [List.map_cons, List.nodup_cons] at hnd
      rcases List.mem_cons.mp hmem with heq | htail
      · subst heq
        rw [List.lookup]
        simp
      · have hne : p.1 ≠ k := by
          intro h
          exact hnd.1 (h ▸ List.mem_map_of_mem Prod.fst htail)
        have hbeq : (k == p.1) = false := by
          rw [beq_eq_false_iff_ne]
          exact fun h => hne h.symm
        rw [List.lookup, hbeq]
        exact ih htail hnd.2

/-! ## Merge validation (`MergeResultsNode.exec`, src/nodes.py)

After prep succeeds, exec checks `isinstance(outline, dict) and "title"
in outline`, then `isinstance(research, dict) and len(research) > 0`;
technologies with no research entry are only logged as warnings and then
the data is returned unchanged. -/

inductive MergeExecError where
  | invalidOutlineStructure
  | invalidResearchResults
deriving DecidableEq

/-- `MergeResultsNode.exec`. -/
def mergeResultsExec (outline research : Value) (technologies : List String) :
    Except MergeExecError (Value × Value × List String) :=
  if !(outline.isDict && outline.dictHas "title") then
    .error .invalidOutlineStructure
  else if !(research.isDict && decide (0 < research.dictSize)) then
    .error .invalidResearchResults
  else
    -- the per-technology check only emits `logger.warning`, never raises
    .ok (outline, research, technologies)

/-! ## Input validators (`validators.validate_technologies`,
src/src/tech_doc_generator/validators.py)

The function walks the list collecting invalid entries (non-strings,
blank-after-strip strings, names longer than 100 characters) and the
stripped valid ones, raises `InvalidTechnologyError` if any entry was
invalid, and otherwise removes case-insensitive duplicates keeping the
first occurrence. -/

inductive TechError where
  | noTechnologies
  | invalidTechnologies (invalid : List Value)

/-- The collection loop of `validate_technologies`: returns the invalid
entries and the stripped valid names, each in source order.  (For a
non-string entry Python records `str(tech)`; we keep the value itself,
which carries the same information.) -/
def partitionTechs : List Value → List Value × List String
  | [] => ([], [])
  | t :: rest =>
      let (inv, cl) := partitionTechs rest
      match t with
      | .str s =>
          let c := pyStrip s
          if c.data.isEmpty then (t :: inv, cl)
          else if 100 < c.length then (t :: inv, cl)
          else (inv, c :: cl)
      | _ => (t :: inv, cl)

/-- The de-duplication loop of `validate_technologies`: `seen` holds the
lower-cased names already kept. -/
def dedupSeen (seen : List String) : List String → List String
  | [] => []
  | t :: rest =>
      if seen.contains (pyLower t) then dedupSeen seen rest
      else t :: dedupSeen (pyLower t :: seen) rest

/-- `validate_technologies`. -/
def validate_technologies (technologies : List Value) :
    Except TechError (List String) :=
  if technologies.isEmpty then .error .noTechnologies
  else
    let (invalid, cleaned) := partitionTechs technologies
    if invalid.isEmpty then .ok (dedupSeen [] cleaned)
    else .error (.invalidTechnologies invalid)

/-- The spec's wording of the normalisation: duplicates removed
case-insensitively, preserving the first occurrence.  Stated
independently of the code's seen-set loop, for comparison with it. -/
def specDedupCaseInsensitive : List String → List String
  | [] => []
  | x :: xs =>
      x :: specDedupCaseInsensitive
        (xs.filter (fun y => !(pyLower y == pyLower x)))
termination_by l => l.length
decreasing_by
  simp only [List.length_cons]
  exact Nat.lt_succ_of_le (List.length_filter_le _ _)

/-- A valid technology entry: a string that strips to a non-blank name
of at most 100 characters. -/
def Value.isValidTech : Value → Bool
  | .str s => !(pyStrip s).data.isEmpty && decide ((pyStrip s).length ≤ 100)
  | _ => false

/-- Strip a technology entry (non-strings map to `""`, a case the
validator never lets through). -/
def cleanEntry : Value → String
  | .str s => pyStrip s
  | _ => ""

theorem partitionTechs_all_valid (techs : List Value)
    (h : ∀ v ∈ techs, v.isValidTech = true) :
    partitionTechs techs = ([], techs.map cleanEntry) := by
  induction techs with
  | nil => rfl
  | cons t rest ih =>
      have ht := h t (List.mem_cons_self t rest)
      have hrest := ih (fun v hv => h v (List.mem_cons_of_mem t hv))
      cases t with
      | str s =>
          simp only [Value.isValidTech, Bool.and_eq_true, Bool.not_eq_true',
            decide_eq_true_eq] at ht
          rw [partitionTechs, hrest]
          simp only [cleanEntry, List.map_cons]
          rw [if_neg (by simp [ht.1]), if_neg (by omega)]
      | null => simp [Value.isValidTech] at ht
      | bool b => simp [Value.isValidTech] at ht
      | strList xs => simp [Value.isValidTech] at ht
      | dict kvs => simp [Value.isValidTech] at ht

/-- The seen-set loop equals the spec's first-occurrence description:
with `seen` already excluded, it keeps exactly the first occurrence of
each remaining case-insensitive name. -/
theorem dedupSeen_eq_spec (l : List String) (seen : List String) :
    dedupSeen seen l =
      specDedupCaseInsensitive
        (l.filter (fun y => !(seen.contains (pyLower y)))) := by
  induction l generalizing seen with
  | nil => simp [dedupSeen, specDedupCaseInsensitive]
  | cons t rest ih =>
      cases hseen : seen.contains (pyLower t) with
      | true =>
          rw [dedupSeen, if_pos hseen, ih seen, List.filter_cons,
            if_neg (by rw [hseen]; simp)]
      | false =>
          rw [dedupSeen, if_neg (by rw [hseen]; simp), ih (pyLower t :: seen),
            List.filter_cons, if_pos (by rw [hseen]; simp),
            specDedupCaseInsensitive]
          congr 1
          rw [List.filter_filter]
          congr 1
          apply List.filter_congr
          intro y _
          simp only [List.contains_cons, Bool.not_or]

/-! ## Pipeline entry point (`TechnologyDocumentGenerator`,
src/utils/tech_doc_generator.py)

`invoke` validates the raw input, creates the Shared Store, runs the
workflow (any failure there is wrapped in the typed
`FlowExecutionError`), and validates/extracts `final_document`.  The
workflow execution itself is a parameter (`flowRun`): the claims about
`invoke` hold for every behaviour of the flow. -/

/-- `InputValidationError` cases of `_validate_inputs`, in the order the
method tests them. -/
inductive InputErr where
  | emptyList
  | nonString (index : Nat)
  | blankEntry (index : Nat)
  | duplicates
deriving DecidableEq

inductive GenError where
  | inputValidation (e : InputErr)
  | flowExecution (msg : String)
  | outputValidation (msg : String)
deriving DecidableEq

/-- The per-entry loop of `_validate_inputs`: the first entry that is
not a string, or that strips to empty, fails with its index. -/
def findEntryError (techs : List Value) (i : Nat) : Option InputErr :=
  match techs with
  | [] => none
  | t :: rest =>
      match t with
      | .str s =>
          if (pyStrip s).data.isEmpty then some (.blankEntry i)
          else findEntryError rest (i + 1)
      | _ => some (.nonString i)

/-- `_validate_inputs`: empty-list check, per-entry checks, then the
duplicate check on the stripped entries
(`len(set(cleaned_techs)) != len(cleaned_techs)`). -/
def validateInputs (techs : List Value) : Option InputErr :=
  if techs.isEmpty then some .emptyList
  else
    match findEntryError techs 0 with
    | some e => some e
    | none =>
        if (techs.map cleanEntry).Nodup then none else some .duplicates

/-- `_create_shared_store` (the two real-time bookkeeping keys
`_start_time` and `_phase_times` are omitted: no claim reads them). -/
def createSharedStore (techs : List Value) : Store :=
  [("technologies", .strList (techs.map cleanEntry)),
   ("outline", .null),
   ("research_results", .null),
   ("final_document", .null),
   ("outline_complete", .bool false),
   ("research_complete", .bool false)]

/-- `_validate_outputs` on `shared.get("final_document")`: reject falsy
(`None`/empty), reject non-strings, reject a document whose stripped
length is under 100 characters, else return it. -/
def validateOutputs (document : Value) : Except GenError String :=
  if !document.truthy then
    .error (.outputValidation "no final_document in shared store")
  else
    match document with
    | .str s =>
        if (pyStrip s).length < 100 then
          .error (.outputValidation "document too short")
        else .ok s
    | _ => .error (.outputValidation "document must be a string")

/-- `TechnologyDocumentGenerator.invoke`.  `flowRun` stands for
`_execute_workflow` acting on the Shared Store; a raising workflow
surfaces as the typed `FlowExecutionError`. -/
def invoke (flowRun : Store → Except String Store) (techs : List Value) :
    Except GenError String :=
  match validateInputs techs with
  | some e => .error (.inputValidation e)
  | none =>
      match flowRun (createSharedStore techs) with
      | .error msg => .error (.flowExecution msg)
      | .ok shared => validateOutputs (storeGet shared "final_document")

/-- Split a character list at newlines (`document.split('\n')`). -/
def splitLines : List Char → List (List Char)
  | [] => [[]]
  | c :: cs =>
      let r := splitLines cs
      if c == '\n' then [] :: r
      else
        match r with
        | [] => [[c]]
        | line :: rest => (c :: line) :: rest

/-- The spec's notion of a markdown heading marker in the document: some
line starts with `#` after stripping (the check
`validators.validate_final_document` performs, but which `invoke` never
calls). -/
def containsHeading (s : String) : Bool :=
  (splitLines s.data).any (fun line =>
    match line.dropWhile isSpaceChar with
    | [] => false
    | c :: _ => c == '#')

/-! ## Node execution engine (retry policy)

Modelled from the spec: the PocketFlow engine class (`Node._exec` /
`Node.run`) is part of this repository but not among the provided
sources — only its callers are — so the retry loop is taken from §4.1 of
the spec: up to `maxRetries` compute attempts, sleeping `wait` between
consecutive attempts, output-write only after a successful compute, and
a terminal `StepExecutionError` once all attempts fail. -/

inductive EngineEvent where
  | computeCall (attempt : Nat)
  | sleepWait (seconds : Nat)
  | outputWrite
deriving DecidableEq

inductive NodeOutcome where
  | success
  | stepExecutionError
deriving DecidableEq

/-- Modelled from the spec: one node run, returning the ordered trace of
engine events and the outcome.  `computeOk attempt` tells whether the
compute phase succeeds on that attempt; `fuel` is the number of attempts
still allowed. -/
def nodeRunFrom (computeOk : Nat → Bool) (wait : Nat) :
    Nat → Nat → List EngineEvent × NodeOutcome
  | _, 0 => ([], .stepExecutionError)
  | attempt, fuel + 1 =>
      if computeOk attempt then
        ([.computeCall attempt, .outputWrite], .success)
      else if fuel = 0 then
        ([.computeCall attempt], .stepExecutionError)
      else
        let rest := nodeRunFrom computeOk wait (attempt + 1) fuel
        (.computeCall attempt :: .sleepWait wait :: rest.1, rest.2)

/-- Modelled from the spec: `run` for a node configured with
`maxRetries` and `wait`. -/
def nodeRun (maxRetries wait : Nat) (computeOk : Nat → Bool) :
    List EngineEvent × NodeOutcome :=
  nodeRunFrom computeOk wait 0 maxRetries

/-! ## Auxiliary facts -/

theorem truthy_eq_false_of_isNull (v : Value) (h : v.isNull = true) :
    v.truthy = false := by
  cases v <;> simp_all [Value.isNull, Value.truthy]

theorem map_fst_graph (f : String → String) (names : List String) :
    (names.map (fun n => (n, f n))).map Prod.fst = names := by
  induction names with
  | nil => rfl
  | cons a l ih => simp only [List.map_cons, ih]

/-! ## Claims -/

/-- C2: a Node configured with `maxRetries = 3` whose compute phase
always raises invokes compute exactly 3 times (attempts 0, 1, 2), sleeps
`wait` between consecutive attempts, never runs the output-write phase,
and ends in `StepExecutionError`.  (Engine modelled from the spec; the
PocketFlow engine class itself is not among the provided sources.) -/
theorem c2_retry_bound (wait : Nat) :
    nodeRun 3 wait (fun _ => false) =
      ([.computeCall 0, .sleepWait wait, .computeCall 1, .sleepWait wait,
        .computeCall 2], .stepExecutionError) ∧
    ((nodeRun 3 wait (fun _ => false)).1.countP
      (fun e => match e with | .computeCall _ => true | _ => false)) = 3 ∧
    EngineEvent.outputWrite ∉ (nodeRun 3 wait (fun _ => false)).1 := by
  refine ⟨rfl, rfl, ?_⟩
  intro hmem
  simp [nodeRun, nodeRunFrom] at hmem

/-- C7: for every interleaving (modelled as any permutation) of the
store assignments performed by `CreateOutlineNode.post` and
`ResearchTechnologiesNode.post_async`, the final Shared Store holds the
outline value, the research value and both completion flags, and every
key outside the four branch-owned keys is unchanged — neither branch
can overwrite the other's result. -/
theorem c7_disjoint_writes (s : Store) (outline research : Value)
    (ops : List WriteOp)
    (hperm : ops.Perm (outlineWrites outline ++ researchWrites research)) :
    storeGet (applyWrites s ops) "outline" = outline ∧
    storeGet (applyWrites s ops) "outline_complete" = .bool true ∧
    storeGet (applyWrites s ops) "research_results" = research ∧
    storeGet (applyWrites s ops) "research_complete" = .bool true ∧
    ∀ k, k ∉ ["outline", "outline_complete", "research_results",
      "research_complete"] → storeGet (applyWrites s ops) k = storeGet s k := by
  have hndL : (((outlineWrites outline ++ researchWrites research).map
      Prod.fst)).Nodup := by
    simp [outlineWrites, researchWrites]
  have hnd : (ops.map Prod.fst).Nodup :=
    ((hperm.map Prod.fst).nodup_iff).mpr hndL
  have hget : ∀ k v, (k, v) ∈ outlineWrites outline ++ researchWrites research →
      storeGet (applyWrites s ops) k = v := by
    intro k v hmem
    have hmem' : (k, v) ∈ ops := hperm.mem_iff.mpr hmem
    rw [storeGet_applyWrites, lastWrite_eq_of_mem ops k v hmem' hnd]
  refine ⟨hget _ _ (by simp [outlineWrites, researchWrites]),
    hget _ _ (by simp [outlineWrites, researchWrites]),
    hget _ _ (by simp [outlineWrites, researchWrites]),
    hget _ _ (by simp [outlineWrites, researchWrites]), ?_⟩
  intro k hk
  have hnotin : k ∉ ops.map Prod.fst := by
    intro hmem
    have := (hperm.map Prod.fst).mem_iff.mp hmem
    simp [outlineWrites, researchWrites] at this
    simp at hk
    rcases this with h | h | h | h <;> simp [h] at hk
  rw [storeGet_applyWrites, lastWrite_eq_none_of_not_mem ops k hnotin]

/-- C7 witness: one concrete interleaving (all research writes before
all outline writes) of concrete branch results over a store that
already holds a `technologies` key. -/
theorem c7_witness :
    storeGet (applyWrites [("technologies", Value.strList ["Redis"])]
        (researchWrites (Value.dict [("Redis", Value.str "r")]) ++
          outlineWrites (Value.dict [("title", Value.str "T")])))
        "outline" = Value.dict [("title", Value.str "T")] ∧
    storeGet (applyWrites [("technologies", Value.strList ["Redis"])]
        (researchWrites (Value.dict [("Redis", Value.str "r")]) ++
          outlineWrites (Value.dict [("title", Value.str "T")])))
        "research_results" = Value.dict [("Redis", Value.str "r")] ∧
    storeGet (applyWrites [("technologies", Value.strList ["Redis"])]
        (researchWrites (Value.dict [("Redis", Value.str "r")]) ++
          outlineWrites (Value.dict [("title", Value.str "T")])))
        "technologies" = Value.strList ["Redis"] := by
  have h := c7_disjoint_writes [("technologies", Value.strList ["Redis"])]
    (Value.dict [("title", Value.str "T")])
    (Value.dict [("Redis", Value.str "r")])
    (researchWrites (Value.dict [("Redis", Value.str "r")]) ++
      outlineWrites (Value.dict [("title", Value.str "T")]))
    (List.perm_append_comm)
  exact ⟨h.1, h.2.2.1, by
    rw [h.2.2.2.2 "technologies" (by simp)]
    rfl⟩

/-- C4: for distinct technology names, `post_async` builds under
`research_results` a mapping with exactly one entry per name, keyed by
the original names, each name bound to the result computed from that
same name — for every completion order (any permutation) of the per-item
results. -/
theorem c4_research_results (names : List String) (f : String → String)
    (results : List (String × String)) (s : Store)
    (hnd : names.Nodup)
    (hperm : results.Perm (names.map (fun n => (n, f n)))) :
    storeGet (researchPost s results) "research_results" =
      .dict ((buildResearchResults results).map
        (fun kv => (kv.1, Value.str kv.2))) ∧
    (buildResearchResults results).length = names.length ∧
    ((buildResearchResults results).map Prod.fst).Perm names ∧
    ∀ n ∈ names, (buildResearchResults results).lookup n = some (f n) := by
  have hkeys : (results.map Prod.fst).Perm names := by
    have h1 := hperm.map Prod.fst
    rwa [map_fst_graph f names] at h1
  have hknd : (results.map Prod.fst).Nodup := hkeys.nodup_iff.mpr hnd
  have hself : buildResearchResults results = results :=
    buildResearchResults_eq_self results hknd
  refine ⟨?_, ?_, ?_, ?_⟩
  · rw [researchPost, researchWrites, applyWrites, applyWrites, applyWrites,
      storeGet_storeSet_other _ _ (by decide), storeGet_storeSet_same]
  · rw [hself, ← List.length_map results Prod.fst, hkeys.length_eq]
  · rw [hself]; exact hkeys
  · intro n hn
    rw [hself]
    have hmem : (n, f n) ∈ results :=
      hperm.mem_iff.mpr (List.mem_map_of_mem (fun n => (n, f n)) hn)
    exact lookup_eq_of_mem_of_nodup results n (f n) hmem hknd

/-- C4 witness: input `["Redis", "Docker"]` with the stubbed
collaborator `n ↦ n ++ "-summary"`, the two results completing in the
reverse of input order. -/
theorem c4_witness :
    (["Redis", "Docker"] : List String).Nodup ∧
    (buildResearchResults
      [("Docker", "Docker-summary"), ("Redis", "Redis-summary")]).lookup
        "Redis" = some "Redis-summary" ∧
    (buildResearchResults
      [("Docker", "Docker-summary"), ("Redis", "Redis-summary")]).lookup
        "Docker" = some "Docker-summary" ∧
    (buildResearchResults
      [("Docker", "Docker-summary"), ("Redis", "Redis-summary")]).length = 2 := by
  have h := c4_research_results ["Redis", "Docker"]
    (fun n => n ++ "-summary")
    [("Docker", "Docker-summary"), ("Redis", "Redis-summary")]
    [] (by decide) (List.Perm.swap _ _ _)
  exact ⟨by decide, h.2.2.2 "Redis" (by simp), h.2.2.2 "Docker" (by simp), h.2.1⟩

/-- Schedule for the C1 counterexample: before the first check the
Outline branch has written a non-null but falsy value (an empty dict)
under `outline`, and the Research branch never writes, so
`research_results` stays null for the whole run. -/
def c1Sched : Nat → Store := fun _ => [("outline", Value.dict [])]

set_option maxRecDepth 4000 in
/-- C1 counterexample: on `c1Sched` the deadline elapses (research never
becomes non-null), and the `TimeoutError` names *both* `outline` and
`research results` as missing even though `outline` is non-null at the
final read — the error does not name exactly the branches still missing,
refuting the claim's timeout clause as stated. -/
theorem c1_counterexample :
    mergeResultsPrep c1Sched = .timeout ["outline", "research results"] ∧
    (storeGet (c1Sched 240) "outline").isNull = false := ⟨rfl, rfl⟩

/-- C1 (amended): if some poll check within the 240 checks of the 120 s
deadline sees both `outline` and `research_results` non-null, prep
returns the success mapping; if no check does, it raises the timeout
error naming every key that is *falsy* (null or empty) at the final
read — in particular, a still-null `research_results` is always named —
but (per the counterexample) a non-null falsy key is named as well. -/
theorem c1_merge_prep (sched : Nat → Store) :
    ((∃ n, n < 240 ∧ bothReady (sched n) = true) →
      ∃ o r t, mergeResultsPrep sched = .success o r t) ∧
    ((∀ n, n < 240 → bothReady (sched n) = false) →
      mergeResultsPrep sched = .timeout (missingOf (sched 240)) ∧
      ((storeGet (sched 240) "research_results").isNull = true →
        "research results" ∈ missingOf (sched 240))) := by
  constructor
  · intro ⟨n, hn, hready⟩
    exact mergePrepLoop_success sched 240 0 ⟨n, hn, by simpa using hready⟩
  · intro h
    constructor
    · have := mergePrepLoop_timeout sched 240 0 (fun i hi => by simpa using h i hi)
      simpa [mergeResultsPrep] using this
    · intro hnull
      have hfalsy := truthy_eq_false_of_isNull _ hnull
      simp [missingOf, hfalsy]

/-- Schedule for the C1 witnesses: both branches have written proper
results before the first check. -/
def c1ReadySched : Nat → Store := fun _ =>
  [("outline", Value.dict [("title", Value.str "T")]),
   ("research_results", Value.dict [("Redis", Value.str "r")]),
   ("technologies", Value.strList ["Redis"])]

/-- Schedule for the C1 witnesses: neither branch ever writes. -/
def c1EmptySched : Nat → Store := fun _ => []

/-- C1 witness: both hypotheses of the amended theorem discharged at
concrete schedules — a run that is ready at the first check succeeds,
and a run where nothing is ever written times out naming both keys. -/
theorem c1_merge_prep_witness :
    (∃ o r t, mergeResultsPrep c1ReadySched = .success o r t) ∧
    mergeResultsPrep c1EmptySched = .timeout (missingOf (c1EmptySched 240)) ∧
    "research results" ∈ missingOf (c1EmptySched 240) := by
  refine ⟨(c1_merge_prep c1ReadySched).1 ⟨0, by omega, rfl⟩, ?_, ?_⟩
  · exact ((c1_merge_prep c1EmptySched).2 (fun n _ => rfl)).1
  · exact ((c1_merge_prep c1EmptySched).2 (fun n _ => rfl)).2 rfl

/-- C10: the loop tests readiness with `is not None` but the timeout
report uses truthiness (`if not shared.get(...)`), so when one branch
has written a falsy non-null result (e.g. an empty dict) and the other
branch's key stays null past the deadline, the raised `TimeoutError`
also names the branch that actually completed: the missing list is
`["outline", "research results"]` in both symmetric cases. -/
theorem c10_timeout_names_completed_branch (sched : Nat → Store) :
    ((∀ n, n ≤ 240 → (storeGet (sched n) "research_results").isNull = true) →
      (storeGet (sched 240) "outline").isNull = false →
      (storeGet (sched 240) "outline").truthy = false →
      mergeResultsPrep sched = .timeout ["outline", "research results"]) ∧
    ((∀ n, n ≤ 240 → (storeGet (sched n) "outline").isNull = true) →
      (storeGet (sched 240) "research_results").isNull = false →
      (storeGet (sched 240) "research_results").truthy = false →
      mergeResultsPrep sched = .timeout ["outline", "research results"]) := by
  constructor
  · intro hnull _ hfalsy
    have hnotready : ∀ i, i < 240 → bothReady (sched (0 + i)) = false := by
      intro i hi
      have := hnull i (by omega)
      simp [bothReady, Nat.zero_add, this]
    have := mergePrepLoop_timeout sched 240 0 hnotready
    rw [mergeResultsPrep, this]
    have hr := truthy_eq_false_of_isNull _ (hnull 240 (by omega))
    simp [missingOf, hfalsy, hr]
  · intro hnull _ hfalsy
    have hnotready : ∀ i, i < 240 → bothReady (sched (0 + i)) = false := by
      intro i hi
      have := hnull i (by omega)
      simp [bothReady, Nat.zero_add, this]
    have := mergePrepLoop_timeout sched 240 0 hnotready
    rw [mergeResultsPrep, this]
    have ho := truthy_eq_false_of_isNull _ (hnull 240 (by omega))
    simp [missingOf, hfalsy, ho]

/-- Schedule for the C10 witness: the Outline branch wrote an empty
dict, the Research branch never writes. -/
def c10OutlineFalsySched : Nat → Store := fun _ => [("outline", Value.dict [])]

/-- Schedule for the C10 witness, symmetric case: the Research branch
wrote an empty dict, the Outline branch never writes. -/
def c10ResearchFalsySched : Nat → Store :=
  fun _ => [("research_results", Value.dict [])]

/-- C10 witness: both symmetric cases of the theorem at concrete
schedules with an empty dict as the falsy completed result. -/
theorem c10_timeout_witness :
    mergeResultsPrep c10OutlineFalsySched =
      .timeout ["outline", "research results"] ∧
    mergeResultsPrep c10ResearchFalsySched =
      .timeout ["outline", "research results"] :=
  ⟨(c10_timeout_names_completed_branch c10OutlineFalsySched).1
      (fun _ _ => rfl) rfl rfl,
   (c10_timeout_names_completed_branch c10ResearchFalsySched).2
      (fun _ _ => rfl) rfl rfl⟩

/-- C6 counterexample: `MergeResultsNode.exec` succeeds on an outline
that has a `title` key but *no* sections at all, refuting the claim that
the validation pass succeeds only if the outline has a non-empty list of
sections. -/
theorem c6_counterexample :
    mergeResultsExec (Value.dict [("title", Value.str "T")])
        (Value.dict [("Redis", Value.str "findings")]) ["Redis"] =
      .ok (Value.dict [("title", Value.str "T")],
        Value.dict [("Redis", Value.str "findings")], ["Redis"]) ∧
    (Value.dict [("title", Value.str "T")]).dictHas "sections" = false :=
  ⟨rfl, rfl⟩

/-- C6 (amended): the Merge validation pass succeeds exactly when the
outline is a mapping containing a `title` key and the research value is
a non-empty mapping (the sections list is not inspected); and its
success never depends on the requested technology list — a technology
with no research entry yields only a warning, never a failure. -/
theorem c6_merge_validation (outline research : Value)
    (techs othertechs : List String) :
    ((∃ d, mergeResultsExec outline research techs = .ok d) ↔
      ((outline.isDict && outline.dictHas "title") &&
        (research.isDict && decide (0 < research.dictSize))) = true) ∧
    (mergeResultsExec outline research techs).isOk =
      (mergeResultsExec outline research othertechs).isOk := by
  cases h1 : (outline.isDict && outline.dictHas "title") with
  | false =>
      have he : ∀ t : List String, mergeResultsExec outline research t =
          .error .invalidOutlineStructure := by
        intro t
        rw [mergeResultsExec, if_pos (by rw [h1]; rfl)]
      rw [he techs, he othertechs]
      simp [h1]
  | true =>
      cases h2 : (research.isDict && decide (0 < research.dictSize)) with
      | false =>
          have he : ∀ t : List String, mergeResultsExec outline research t =
              .error .invalidResearchResults := by
            intro t
            rw [mergeResultsExec, if_neg (by rw [h1]; simp),
              if_pos (by rw [h2]; rfl)]
          rw [he techs, he othertechs]
          simp [h1, h2]
      | true =>
          have he : ∀ t : List String, mergeResultsExec outline research t =
              .ok (outline, research, t) := by
            intro t
            rw [mergeResultsExec, if_neg (by rw [h1]; simp),
              if_neg (by rw [h2]; simp)]
          rw [he techs, he othertechs]
          exact ⟨by simp, rfl⟩

/-- C6 witness: the amended equivalence instantiated at a concrete
outline/research pair, with a technology (`Docker`) that has no research
entry and does not affect success. -/
theorem c6_merge_validation_witness :
    (∃ d, mergeResultsExec (Value.dict [("title", Value.str "T")])
      (Value.dict [("Redis", Value.str "findings")]) ["Redis", "Docker"] = .ok d) ∧
    (mergeResultsExec (Value.dict [("title", Value.str "T")])
        (Value.dict [("Redis", Value.str "findings")]) ["Redis", "Docker"]).isOk =
      (mergeResultsExec (Value.dict [("title", Value.str "T")])
        (Value.dict [("Redis", Value.str "findings")]) []).isOk := by
  have h := c6_merge_validation (Value.dict [("title", Value.str "T")])
    (Value.dict [("Redis", Value.str "findings")]) ["Redis", "Docker"] []
  exact ⟨h.1.mpr rfl, h.2⟩

theorem dedupSeen_nil_eq_spec (l : List String) :
    dedupSeen [] l = specDedupCaseInsensitive l := by
  rw [dedupSeen_eq_spec]
  congr 1
  induction l with
  | nil => rfl
  | cons t rest ih => simp [List.filter_cons, ih]

/-- The seen-set loop returns an already de-duplicated list unchanged
when none of its (lower-cased) entries was seen before. -/
theorem dedupSeen_eq_self (l seen : List String)
    (hnd : (l.map pyLower).Nodup)
    (hfresh : ∀ s ∈ l, seen.contains (pyLower s) = false) :
    dedupSeen seen l = l := by
  induction l generalizing seen with
  | nil => rfl
  | cons t rest ih =>
      simp only [List.map_cons, List.nodup_cons] at hnd
      rw [dedupSeen, if_neg (by rw [hfresh t (by simp)]; simp)]
      congr 1
      refine ih (pyLower t :: seen) hnd.2 ?_
      intro s hs
      rw [List.contains_cons]
      have h1 : (pyLower s == pyLower t) = false := by
        rw [beq_eq_false_iff_ne]
        intro heq
        exact hnd.1 (heq ▸ List.mem_map_of_mem pyLower hs)
      rw [h1, hfresh s (List.mem_cons_of_mem t hs)]
      rfl

/-- A string of 101 identical characters: a technology name the
validator rejects for length. -/
def longTechName : String := String.mk (List.replicate 101 'a')

/-- C5 counterexample: `validate_technologies` fails on a list whose
single entry is a non-blank string — none of the claim's failure
conditions (empty list, non-string entry, blank entry) holds, yet the
101-character name is rejected instead of being returned trimmed. -/
theorem c5_counterexample :
    validate_technologies [Value.str longTechName] =
      .error (.invalidTechnologies [Value.str longTechName]) ∧
    (Value.str longTechName).isStr = true ∧
    pyStrip longTechName = longTechName ∧
    longTechName.data.isEmpty = false ∧
    ([Value.str longTechName] : List Value) ≠ [] := by
  refine ⟨rfl, rfl, by decide, by decide, by simp⟩

theorem isValidTech_eq_false_of_isStr_false (v : Value)
    (h : v.isStr = false) : v.isValidTech = false := by
  cases v <;> simp_all [Value.isStr, Value.isValidTech]

/-- The collection loop keeps at least one invalid entry whenever the
input contains one. -/
theorem partitionTechs_fst_isEmpty_false (techs : List Value)
    (h : ∃ v ∈ techs, v.isValidTech = false) :
    (partitionTechs techs).1.isEmpty = false := by
  induction techs with
  | nil =>
      obtain ⟨v, hv, _⟩ := h
      exact absurd hv (by simp)
  | cons t rest ih =>
      cases hpr : partitionTechs rest with
      | mk inv cl =>
          cases t with
          | str s =>
              simp only [partitionTechs, hpr]
              cases hblank : (pyStrip s).data.isEmpty with
              | true => simp
              | false =>
                  rw [if_neg (by simp)]
                  by_cases hlen : 100 < (pyStrip s).length
                  · rw [if_pos hlen]
                    simp
                  · rw [if_neg hlen]
                    have hrest : ∃ v ∈ rest, v.isValidTech = false := by
                      obtain ⟨v, hv, hbad⟩ := h
                      rcases List.mem_cons.mp hv with rfl | htail
                      · rw [Value.isValidTech, hblank] at hbad
                        simp only [Bool.not_false, Bool.true_and] at hbad
                        rw [decide_eq_false_iff_not] at hbad
                        omega
                      · exact ⟨v, htail, hbad⟩
                    have hres := ih hrest
                    rw [hpr] at hres
                    simpa using hres
          | null => simp [partitionTechs, hpr]
          | bool b => simp [partitionTechs, hpr]
          | strList xs => simp [partitionTechs, hpr]
          | dict kvs => simp [partitionTechs, hpr]

theorem validate_technologies_fails_of_invalid (techs : List Value)
    (h : ∃ v ∈ techs, v.isValidTech = false) :
    ∃ e, validate_technologies techs = .error e := by
  have hne : techs.isEmpty = false := by
    obtain ⟨v, hv, _⟩ := h
    cases techs with
    | nil => simp at hv
    | cons t rest => rfl
  have hfst := partitionTechs_fst_isEmpty_false techs h
  cases hpr : partitionTechs techs with
  | mk inv cl =>
      rw [hpr] at hfst
      simp only at hfst
      refine ⟨.invalidTechnologies inv, ?_⟩
      rw [validate_technologies, if_neg (by simp [hne]), hpr]
      show (if inv.isEmpty then Except.ok (dedupSeen [] cl)
            else Except.error (TechError.invalidTechnologies inv)) =
          Except.error (TechError.invalidTechnologies inv)
      rw [if_neg (by simp [hfst])]

/-- Every failure class of the amended claim — empty list, non-string
entry, blank (whitespace-only) entry, entry longer than 100 characters
after stripping — makes `validate_technologies` raise. -/
theorem validate_technologies_fails (techs : List Value)
    (hbad : techs = [] ∨ (∃ v ∈ techs, v.isStr = false) ∨
      (∃ s, Value.str s ∈ techs ∧ (pyStrip s).data.isEmpty = true) ∨
      (∃ s, Value.str s ∈ techs ∧ 100 < (pyStrip s).length)) :
    ∃ e, validate_technologies techs = .error e := by
  rcases hbad with rfl | h | h | h
  · exact ⟨.noTechnologies, rfl⟩
  · obtain ⟨v, hv, hstr⟩ := h
    exact validate_technologies_fails_of_invalid techs
      ⟨v, hv, isValidTech_eq_false_of_isStr_false v hstr⟩
  · obtain ⟨s, hv, hblank⟩ := h
    refine validate_technologies_fails_of_invalid techs ⟨Value.str s, hv, ?_⟩
    simp [Value.isValidTech, hblank]
  · obtain ⟨s, hv, hlong⟩ := h
    refine validate_technologies_fails_of_invalid techs ⟨Value.str s, hv, ?_⟩
    have hd : decide ((pyStrip s).length ≤ 100) = false :=
      decide_eq_false (by omega)
    simp [Value.isValidTech, hd]

/-- C5 (amended): validation fails on an empty list and on every list
containing a non-string entry, a blank (whitespace-only) entry, or an
entry longer than 100 characters after stripping; on every other
list — non-empty, all entries strings stripping to non-blank names of
at most 100 characters — it returns the entries whitespace-trimmed with
case-insensitive duplicates removed, preserving first occurrences
(`specDedupCaseInsensitive` is that spec-side description). -/
theorem c5_prepare_validation (techs : List Value) :
    ((techs = [] ∨ (∃ v ∈ techs, v.isStr = false) ∨
        (∃ s, Value.str s ∈ techs ∧ (pyStrip s).data.isEmpty = true) ∨
        (∃ s, Value.str s ∈ techs ∧ 100 < (pyStrip s).length)) →
      ∃ e, validate_technologies techs = .error e) ∧
    (techs ≠ [] → (∀ v ∈ techs, v.isValidTech = true) →
      validate_technologies techs =
        .ok (specDedupCaseInsensitive (techs.map cleanEntry))) := by
  refine ⟨validate_technologies_fails techs, ?_⟩
  intro hne hval
  have hpart := partitionTechs_all_valid techs hval
  rw [validate_technologies, if_neg (by simpa using hne)]
  rw [hpart]
  simpa using dedupSeen_nil_eq_spec (techs.map cleanEntry)

/-- C5 witness: the success clause at a list with leading whitespace
and a case-insensitive duplicate, and the failure clause at each bad
input class — the empty list, a non-string entry, a blank entry, and a
101-character entry. -/
theorem c5_prepare_validation_witness :
    validate_technologies
        [Value.str " Docker", Value.str "docker", Value.str "Redis"] =
      .ok (specDedupCaseInsensitive
        ([Value.str " Docker", Value.str "docker",
          Value.str "Redis"].map cleanEntry)) ∧
    (∃ e, validate_technologies [] = .error e) ∧
    (∃ e, validate_technologies [Value.bool true] = .error e) ∧
    (∃ e, validate_technologies [Value.str "   "] = .error e) ∧
    (∃ e, validate_technologies [Value.str longTechName] = .error e) :=
  ⟨(c5_prepare_validation _).2 (by simp) (by decide),
   (c5_prepare_validation _).1 (Or.inl rfl),
   (c5_prepare_validation _).1 (Or.inr (Or.inl ⟨Value.bool true, by simp, rfl⟩)),
   (c5_prepare_validation _).1
     (Or.inr (Or.inr (Or.inl ⟨"   ", by simp, by decide⟩))),
   (c5_prepare_validation _).1
     (Or.inr (Or.inr (Or.inr ⟨longTechName, by simp, by decide⟩)))⟩

/-- C9 counterexample: the list `[""]` satisfies the claim's definition
of already-cleaned (non-empty, every entry trimmed, no case-insensitive
duplicates), yet `validate_technologies` rejects it instead of
returning it unchanged. -/
theorem c9_counterexample :
    (([""] : List String) ≠ []) ∧
    (∀ s ∈ ([""] : List String), pyStrip s = s) ∧
    ((([""] : List String).map pyLower)).Nodup ∧
    validate_technologies (([""] : List String).map Value.str) =
      .error (.invalidTechnologies [Value.str ""]) := by
  refine ⟨by simp, by decide, by decide, rfl⟩

/-- C9 (amended): for every already-cleaned list — non-empty, every
entry trimmed, non-blank and at most 100 characters, no
case-insensitive duplicates — `validate_technologies` returns the list
unchanged, so applying it twice equals applying it once. -/
theorem c9_validation_idempotent (ts : List String)
    (hne : ts ≠ [])
    (hclean : ∀ s ∈ ts, pyStrip s = s ∧ s.data.isEmpty = false ∧ s.length ≤ 100)
    (hnd : (ts.map pyLower).Nodup) :
    validate_technologies (ts.map Value.str) = .ok ts ∧
    (validate_technologies (ts.map Value.str)).bind
        (fun out => validate_technologies (out.map Value.str)) =
      validate_technologies (ts.map Value.str) := by
  have hval : ∀ v ∈ ts.map Value.str, v.isValidTech = true := by
    intro v hv
    obtain ⟨s, hs, rfl⟩ := List.mem_map.mp hv
    obtain ⟨h1, h2, h3⟩ := hclean s hs
    simp [Value.isValidTech, h1, h2, h3]
  have hpart := partitionTechs_all_valid (ts.map Value.str) hval
  have hmapclean : (ts.map Value.str).map cleanEntry = ts := by
    rw [List.map_map]
    have : ∀ s ∈ ts, (cleanEntry ∘ Value.str) s = id s := by
      intro s hs
      simp [cleanEntry, (hclean s hs).1]
    rw [List.map_congr_left this, List.map_id]
  have hok : validate_technologies (ts.map Value.str) = .ok ts := by
    rw [validate_technologies, if_neg (by simpa using hne), hpart, hmapclean]
    simp only [List.isEmpty_nil]
    rw [if_pos trivial]
    rw [dedupSeen_eq_self ts [] hnd (fun s _ => rfl)]
  refine ⟨hok, ?_⟩
  rw [hok]
  exact hok

/-- C9 witness: the claim's own example `["Docker", "Redis"]` is
returned unchanged, and a second application changes nothing. -/
theorem c9_validation_idempotent_witness :
    validate_technologies ((["Docker", "Redis"] : List String).map Value.str) =
      .ok ["Docker", "Redis"] ∧
    (validate_technologies ((["Docker", "Redis"] : List String).map Value.str)).bind
        (fun out => validate_technologies (out.map Value.str)) =
      validate_technologies ((["Docker", "Redis"] : List String).map Value.str) :=
  c9_validation_idempotent ["Docker", "Redis"] (by simp) (by decide) (by decide)

/-- A 120-character document with no markdown heading marker anywhere:
what the Write node stores if the language model returns plain prose. -/
def plainDoc : String := String.mk (List.replicate 120 'a')

/-- C3 counterexample: a flow that stores a 120-character document with
no heading marker makes `invoke` return it — `_validate_outputs` checks
only truthiness, string-ness and minimum length, never the heading
marker the claim requires, so the claim as stated fails. -/
theorem c3_counterexample :
    invoke (fun s => .ok (storeSet s "final_document" (Value.str plainDoc)))
        [Value.str "Redis"] = .ok plainDoc ∧
    containsHeading plainDoc = false ∧
    100 ≤ plainDoc.length := ⟨rfl, by decide, by decide⟩

/-- `_validate_outputs` on a string document, written as the chain of
checks it performs. -/
theorem validateOutputs_str (s : String) :
    validateOutputs (Value.str s) =
      if s.data.isEmpty then
        .error (.outputValidation "no final_document in shared store")
      else if (pyStrip s).length < 100 then
        .error (.outputValidation "document too short")
      else .ok s := by
  cases hne : s.data.isEmpty with
  | true =>
      rw [if_pos (by simp), validateOutputs.eq_def,
        if_pos (by simp [Value.truthy, hne])]
  | false =>
      rw [if_neg (by simp), validateOutputs.eq_def,
        if_neg (by simp [Value.truthy, hne])]

/-- C3 (amended): for every input list and every behaviour of the
workflow, `invoke` either raises a typed error or returns a non-empty
string whose stripped length is at least 100 characters — it never
silently returns an empty or null result — but it does not guarantee a
markdown heading marker. -/
theorem c3_output_validation (flowRun : Store → Except String Store)
    (techs : List Value) :
    (∃ e, invoke flowRun techs = .error e) ∨
    (∃ s, invoke flowRun techs = .ok s ∧
      100 ≤ (pyStrip s).length ∧ s.data.isEmpty = false) := by
  cases h1 : validateInputs techs with
  | some e => exact .inl ⟨.inputValidation e, by rw [invoke, h1]⟩
  | none =>
      cases h2 : flowRun (createSharedStore techs) with
      | error msg => exact .inl ⟨.flowExecution msg, by rw [invoke, h1, h2]⟩
      | ok shared =>
          have hinv : invoke flowRun techs =
              validateOutputs (storeGet shared "final_document") := by
            rw [invoke, h1, h2]
          rw [hinv]
          cases storeGet shared "final_document" with
          | str s =>
              rw [validateOutputs_str]
              cases hne : s.data.isEmpty with
              | true =>
                  exact .inl ⟨.outputValidation "no final_document in shared store",
                    by rw [if_pos (by simp)]⟩
              | false =>
                  rw [if_neg (by simp)]
                  cases hlen : decide ((pyStrip s).length < 100) with
                  | true =>
                      exact .inl ⟨.outputValidation "document too short",
                        by rw [if_pos (of_decide_eq_true hlen)]⟩
                  | false =>
                      have hge : 100 ≤ (pyStrip s).length := by
                        have := of_decide_eq_false hlen
                        omega
                      exact .inr ⟨s,
                        by rw [if_neg (of_decide_eq_false hlen)], hge, hne⟩
          | null =>
              exact .inl ⟨.outputValidation "no final_document in shared store", rfl⟩
          | bool b =>
              cases b with
              | false =>
                  exact .inl ⟨.outputValidation "no final_document in shared store", rfl⟩
              | true =>
                  exact .inl ⟨.outputValidation "document must be a string", rfl⟩
          | strList xs =>
              cases xs with
              | nil =>
                  exact .inl ⟨.outputValidation "no final_document in shared store", rfl⟩
              | cons y ys =>
                  exact .inl ⟨.outputValidation "document must be a string", rfl⟩
          | dict kvs =>
              cases kvs with
              | nil =>
                  exact .inl ⟨.outputValidation "no final_document in shared store", rfl⟩
              | cons kv rest =>
                  exact .inl ⟨.outputValidation "document must be a string", rfl⟩

theorem findEntryError_isSome_of_bad (techs : List Value)
    (hmid : ∃ v ∈ techs, v.isStr = false ∨
      (∃ s, v = Value.str s ∧ (pyStrip s).data.isEmpty = true)) :
    ∀ i, (findEntryError techs i).isSome = true := by
  induction techs with
  | nil =>
      obtain ⟨v, hv, _⟩ := hmid
      exact absurd hv (by simp)
  | cons t rest ih =>
      intro i
      cases t with
      | str s =>
          simp only [findEntryError]
          cases hblank : (pyStrip s).data.isEmpty with
          | true => simp
          | false =>
              rw [if_neg (by simp)]
              apply ih
              obtain ⟨v, hv, hcase⟩ := hmid
              rcases List.mem_cons.mp hv with heq | htail
              · subst heq
                rcases hcase with hstr | ⟨s', hs', hblank'⟩
                · exact absurd hstr (by simp [Value.isStr])
                · cases hs'
                  simp [hblank'] at hblank
              · exact ⟨v, htail, hcase⟩
      | null => simp [findEntryError]
      | bool b => simp [findEntryError]
      | strList xs => simp [findEntryError]
      | dict kvs => simp [findEntryError]

theorem validateInputs_isSome_of_bad (techs : List Value)
    (hbad : techs = [] ∨ (∃ v ∈ techs, v.isStr = false) ∨
      (∃ s, Value.str s ∈ techs ∧ (pyStrip s).data.isEmpty = true) ∨
      ¬techs.Nodup) :
    ∃ e, validateInputs techs = some e := by
  by_cases hemp : techs.isEmpty
  · exact ⟨.emptyList, by rw [validateInputs, if_pos hemp]⟩
  · rcases hbad with hemp' | hmid | hmid | hdup
    · exact absurd (by rw [hemp']; rfl) hemp
    · have hfind := findEntryError_isSome_of_bad techs
        (by obtain ⟨v, hv, hstr⟩ := hmid; exact ⟨v, hv, .inl hstr⟩) 0
      obtain ⟨e, he⟩ := Option.isSome_iff_exists.mp hfind
      exact ⟨e, by rw [validateInputs, if_neg hemp, he]⟩
    · have hfind := findEntryError_isSome_of_bad techs
        (by obtain ⟨s, hv, hblank⟩ := hmid; exact ⟨_, hv, .inr ⟨s, rfl, hblank⟩⟩) 0
      obtain ⟨e, he⟩ := Option.isSome_iff_exists.mp hfind
      exact ⟨e, by rw [validateInputs, if_neg hemp, he]⟩
    · cases hfind : findEntryError techs 0 with
      | some e => exact ⟨e, by rw [validateInputs, if_neg hemp, hfind]⟩
      | none =>
          refine ⟨.duplicates, ?_⟩
          rw [validateInputs, if_neg hemp, hfind, if_neg]
          intro hnd
          exact hdup hnd.of_map

/-- C8: on every bad input — an empty list, a non-string entry, a
blank (whitespace-only) entry, or duplicate entries — `invoke` fails
with `InputValidationError`, and its result does not depend on the
workflow at all: the error is produced before any node could run and
before the Shared Store is even created, so no store is mutated. -/
theorem c8_input_validation (techs : List Value)
    (flowRun : Store → Except String Store)
    (hbad : techs = [] ∨ (∃ v ∈ techs, v.isStr = false) ∨
      (∃ s, Value.str s ∈ techs ∧ (pyStrip s).data.isEmpty = true) ∨
      ¬techs.Nodup) :
    ∃ e, invoke flowRun techs = .error (.inputValidation e) ∧
      ∀ g, invoke g techs = invoke flowRun techs := by
  obtain ⟨e, he⟩ := validateInputs_isSome_of_bad techs hbad
  refine ⟨e, ?_, ?_⟩
  · rw [invoke, he]
  · intro g
    rw [invoke, invoke, he]

/-- C8 witness: the empty input list, with the identity workflow. -/
theorem c8_input_validation_witness :
    (([] : List Value) = []) ∧
    ∃ e, invoke (fun s => .ok s) [] = .error (.inputValidation e) ∧
      ∀ g, invoke g [] = invoke (fun s => .ok s) [] :=
  ⟨rfl, c8_input_validation [] (fun s => .ok s) (Or.inl rfl)⟩

end TechDoc
